import Mathlib

/-!
# Verification of the WeilChain wallet SDK identity-and-signing core

Shallow embedding, in Lean 4, of the Python modules `weil_wallet/wallet.py`,
`weil_wallet/contract.py`, `weil_wallet/client.py`, `weil_wallet/transaction.py`,
`weil_wallet/derived_wallet.py`, `weil_wallet/utils.py` and `weil_ai/auth.py`.

Python `bytes` values are embedded as `List Nat` (each element a byte value),
Python strings as Lean `String`, Python integers as `Int`/`Nat`, and fallible
Python code as `Except PyExc` where raised exceptions become `.error`.
External cryptographic collaborators (secp256k1 sign/recover, SHA-256,
Keccak-256, BIP32 child-key derivation) are parameters of the embedding,
exactly as the code treats them as opaque library calls.
-/

set_option autoImplicit false

set_option exponentiation.threshold 512

deriving instance DecidableEq for Except

namespace WeilSpec

/-- The Python exception classes that the embedded code can raise.
`valueError` and the SDK's own `InvalidContractIdError` (from `errors.py`)
carry their message; `typeError` and `attributeError` model the builtin
exceptions raised by `bytes.fromhex(None)` and `None.encode(...)`. -/
inductive PyExc where
  | valueError (msg : String)
  | invalidContractIdError (msg : String)
  | typeError
  | attributeError
  deriving DecidableEq, Repr

/-! ## Byte-list helpers -/

/-- `bytes.rjust(32, b"\x00")` from `wallet.py`: left-pad a byte string with
zero bytes to length 32 (identity when already at least 32 long). -/
def rjust32 (l : List Nat) : List Nat :=
  List.replicate (32 - l.length) 0 ++ l

@[simp] theorem rjust32_length_of_le {l : List Nat} (h : l.length ≤ 32) :
    (rjust32 l).length = 32 := by
  simp [rjust32]
  omega

/-! ## SignatureCodec: `_der_signature_to_compact` (`wallet.py`)

Faithful embedding of the DER-to-compact converter.  The Python function
indexes `der[i]`; every index access is guarded by a preceding length check,
so `List.getD · 0` agrees with the Python access on the executed paths. -/

/-- `wallet.py` lines 126-131: strip the single DER zero-padding byte.
Python: `if len(r) == 33 and r[0] == 0x00: r = r[1:]`. -/
def stripDerPad (r : List Nat) : List Nat :=
  if r.length = 33 ∧ r.headD 0 = 0 then r.tail else r

/-- `wallet.py` lines 126-137: strip padding, enforce the 32-byte bound on
each component, left-pad to 32 bytes and concatenate. -/
def derFinish (r s : List Nat) : Except PyExc (List Nat) :=
  let r' := stripDerPad r
  let s' := stripDerPad s
  if 32 < r'.length then .error (.valueError "r component too long, expected <= 32")
  else if 32 < s'.length then .error (.valueError "s component too long, expected <= 32")
  else .ok (rjust32 r' ++ rjust32 s')

/-- `wallet.py` lines 105-124: parse the two INTEGER components starting at
offset `i` (the position right after the outer tag/length). -/
def derParseComponents (der : List Nat) (i : Nat) : Except PyExc (List Nat) :=
  if der.length ≤ i + 1 then .error (.valueError "DER signature truncated before r tag")
  else if der.getD i 0 ≠ 0x02 then .error (.valueError "expected 0x02 tag for r component")
  else
    let rLen := der.getD (i + 1) 0
    if der.length < i + 2 + rLen then .error (.valueError "DER signature truncated in r component")
    else
      let r := (der.drop (i + 2)).take rLen
      let j := i + 2 + rLen
      if der.length ≤ j + 1 then .error (.valueError "DER signature truncated before s tag")
      else if der.getD j 0 ≠ 0x02 then .error (.valueError "expected 0x02 tag for s component")
      else
        let sLen := der.getD (j + 1) 0
        if der.length < j + 2 + sLen then .error (.valueError "DER signature truncated in s component")
        else derFinish r ((der.drop (j + 2)).take sLen)

/-- `_der_signature_to_compact` (`wallet.py` lines 86-137): convert a
DER-encoded ECDSA signature to the 64-byte compact `r ‖ s` form. -/
def derSignatureToCompact (der : List Nat) : Except PyExc (List Nat) :=
  if der.length < 8 then .error (.valueError "invalid DER signature length")
  else if der.getD 0 0 ≠ 0x30 then .error (.valueError "DER signature must start with 0x30")
  else if der.getD 1 0 = 0x80 then .error (.valueError "indefinite length DER not supported")
  else if der.getD 1 0 < 128 then derParseComponents der 2
  else
    let numLenBytes := der.getD 1 0 % 128
    if der.length < 2 + numLenBytes then
      .error (.valueError "DER signature too short for length encoding")
    else derParseComponents der (2 + numLenBytes)

/-! ## The DER encoder of the external curve library

The DER producer (coincurve / libsecp256k1) is outside this repository. -/

/-- Minimal big-endian byte encoding of an unsigned integer given by its
(possibly zero-padded) big-endian bytes: drop leading zero bytes, with `[0]`
for the zero value. -/
def minimalBE (b : List Nat) : List Nat :=
  match b.dropWhile (· = 0) with
  | [] => [0]
  | l => l

/-- Modelled from the spec: the external curve library "encodes positive
integers with a leading 0x00 when the high bit is set" (DER INTEGER body for
one signature component, given by its big-endian bytes). -/
def derIntEncode (b : List Nat) : List Nat :=
  let m := minimalBE b
  if 128 ≤ m.headD 0 then 0 :: m else m

/-- Modelled from the spec: the DER encoding `0x30 [total] 0x02 [r_len] [r...]
0x02 [s_len] [s...]` of an ECDSA `(r, s)` pair, as produced by the external
curve library (`wallet.py` line 90 documents this exact layout). -/
def derEncodeSig (r32 s32 : List Nat) : List Nat :=
  let rm := derIntEncode r32
  let sm := derIntEncode s32
  [0x30, 4 + rm.length + sm.length, 0x02, rm.length] ++ (rm ++ ([0x02, sm.length] ++ sm))

/-! ## Round-trip lemmas for the signature codec -/

theorem minimalBE_length_pos (b : List Nat) : 1 ≤ (minimalBE b).length := by
  unfold minimalBE
  cases h : b.dropWhile (· = 0) <;> simp

theorem dropWhile_length_le (p : Nat → Bool) (l : List Nat) :
    (l.dropWhile p).length ≤ l.length :=
  (List.dropWhile_sublist p).length_le

theorem minimalBE_length_le {b : List Nat} (h : b.length = 32) :
    (minimalBE b).length ≤ 32 := by
  unfold minimalBE
  cases hd : b.dropWhile (· = 0) with
  | nil => simp
  | cons x xs =>
    have hle := dropWhile_length_le (· = 0) b
    rw [hd] at hle
    simpa using hle.trans (le_of_eq h)

theorem takeWhile_zero_eq_replicate (b : List Nat) :
    b.takeWhile (· = 0) = List.replicate (b.takeWhile (· = 0)).length 0 :=
  List.eq_replicate_length.mpr (fun _ hy => by simpa using List.mem_takeWhile_imp hy)

/-- Left-padding the minimal big-endian encoding back to 32 bytes recovers the
original 32-byte component. -/
theorem rjust32_minimalBE {b : List Nat} (h : b.length = 32) :
    rjust32 (minimalBE b) = b := by
  have htd := List.takeWhile_append_dropWhile (· = 0) b
  unfold minimalBE
  cases hd : b.dropWhile (· = 0) with
  | nil =>
    rw [hd, List.append_nil] at htd
    have hb : b = List.replicate 32 0 := by
      have hrep := takeWhile_zero_eq_replicate b
      rw [htd, h] at hrep
      exact hrep
    rw [hb]
    decide
  | cons x xs =>
    rw [hd] at htd
    have hlen : (b.takeWhile (· = 0)).length + (x :: xs).length = 32 := by
      have h2 := congrArg List.length htd
      rw [List.length_append, h] at h2
      exact h2
    rw [← htd, takeWhile_zero_eq_replicate b]
    unfold rjust32
    have hc : 32 - (x :: xs).length = (b.takeWhile (· = 0)).length := by omega
    rw [hc]

theorem rjust32_cons_zero {m : List Nat} (h : m.length + 1 ≤ 32) :
    rjust32 (0 :: m) = rjust32 m := by
  unfold rjust32
  have hc : 32 - m.length = (32 - (m.length + 1)) + 1 := by omega
  simp only [List.length_cons]
  rw [hc, List.replicate_succ', List.append_assoc, List.singleton_append]

/-- After `stripDerPad`, the DER INTEGER body of a 32-byte component is at most
32 bytes and left-pads back to the original component. -/
theorem stripDerPad_derIntEncode {b : List Nat} (h : b.length = 32) :
    (stripDerPad (derIntEncode b)).length ≤ 32 ∧
      rjust32 (stripDerPad (derIntEncode b)) = b := by
  have h1 := minimalBE_length_pos b
  have h2 := minimalBE_length_le h
  have h3 := rjust32_minimalBE h
  unfold derIntEncode stripDerPad
  by_cases hhi : 128 ≤ (minimalBE b).headD 0
  · rw [if_pos hhi]
    by_cases hfull : (minimalBE b).length = 32
    · rw [if_pos (by simp [hfull])]
      simpa [hfull] using h3
    · rw [if_neg (by simp; omega)]
      constructor
      · simp; omega
      · rw [rjust32_cons_zero (by omega)]
        exact h3
  · rw [if_neg hhi, if_neg (by omega)]
    exact ⟨h2, h3⟩

theorem derFinish_of_le {r s : List Nat}
    (hr : (stripDerPad r).length ≤ 32) (hs : (stripDerPad s).length ≤ 32) :
    derFinish r s = .ok (rjust32 (stripDerPad r) ++ rjust32 (stripDerPad s)) := by
  unfold derFinish
  rw [if_neg (by omega), if_neg (by omega)]

theorem getD_drop (l : List Nat) (n d : Nat) : l.getD n d = (l.drop n).headD d := by
  simp [List.getD, List.headD_eq_head?, List.head?_drop]

/-- Running the component parser on a well-formed DER body recovers the two
INTEGER bodies and hands them to `derFinish`. -/
theorem derParseComponents_eval (t L : Nat) (rm sm : List Nat)
    (hrm : 1 ≤ rm.length) (hsm : 1 ≤ sm.length) :
    derParseComponents ([t, L, 0x02, rm.length] ++ (rm ++ ([0x02, sm.length] ++ sm))) 2
      = derFinish rm sm := by
  set der := [t, L, 0x02, rm.length] ++ (rm ++ ([0x02, sm.length] ++ sm)) with hder
  have hlen : der.length = 6 + rm.length + sm.length := by
    simp [hder]
    omega
  have d4 : der.drop 4 = rm ++ ([0x02, sm.length] ++ sm) := rfl
  have dj : der.drop (4 + rm.length) = [0x02, sm.length] ++ sm := by
    rw [← List.drop_drop rm.length 4 der, d4, List.drop_left rm ([0x02, sm.length] ++ sm)]
  have djs : der.drop (4 + rm.length + 2) = sm := by
    rw [← List.drop_drop 2 (4 + rm.length) der, dj]
    rfl
  have g2 : der.getD 2 0 = 0x02 := by rw [getD_drop]; rfl
  have g3 : der.getD 3 0 = rm.length := by rw [getD_drop]; rfl
  have gj : der.getD (4 + rm.length) 0 = 0x02 := by rw [getD_drop, dj]; rfl
  have gj1 : der.getD (4 + rm.length + 1) 0 = sm.length := by
    rw [getD_drop, ← List.drop_drop 1 (4 + rm.length) der, dj]
    rfl
  unfold derParseComponents
  rw [if_neg (by omega), if_neg (by rw [g2]; decide)]
  simp only [g3]
  rw [if_neg (by omega)]
  simp only [d4, List.take_left]
  rw [if_neg (by omega), if_neg (by rw [gj]; decide)]
  simp only [gj1]
  rw [if_neg (by omega)]
  simp only [djs, List.take_length]

theorem derIntEncode_length_pos (b : List Nat) : 1 ≤ (derIntEncode b).length := by
  unfold derIntEncode
  by_cases h : 128 ≤ (minimalBE b).headD 0
  · rw [if_pos h]; simp
  · rw [if_neg h]; exact minimalBE_length_pos b

theorem derIntEncode_length_le {b : List Nat} (hb : b.length = 32) :
    (derIntEncode b).length ≤ 33 := by
  have := minimalBE_length_le hb
  unfold derIntEncode
  by_cases h : 128 ≤ (minimalBE b).headD 0
  · rw [if_pos h]; simp; omega
  · rw [if_neg h]; omega

/-- C2: for every pair of ECDSA component integers fitting in 32 big-endian
bytes (given here by their 32-byte big-endian representations `r32`, `s32`,
covering in particular the high-bit cases where the DER body carries an extra
leading zero byte), converting the DER encoding of `(r, s)` with the
DER-to-compact converter returns exactly `r32 ++ s32`: the original 64 bytes,
each component left-padded with zeros to 32 bytes. -/
theorem c2_der_compact_roundtrip (r32 s32 : List Nat)
    (hr : r32.length = 32) (hs : s32.length = 32) :
    derSignatureToCompact (derEncodeSig r32 s32) = .ok (r32 ++ s32) := by
  have hrp := stripDerPad_derIntEncode hr
  have hsp := stripDerPad_derIntEncode hs
  have hrm1 : 1 ≤ (derIntEncode r32).length := derIntEncode_length_pos r32
  have hrm2 : (derIntEncode r32).length ≤ 33 := derIntEncode_length_le hr
  have hsm1 : 1 ≤ (derIntEncode s32).length := derIntEncode_length_pos s32
  have hsm2 : (derIntEncode s32).length ≤ 33 := derIntEncode_length_le hs
  set rm := derIntEncode r32 with hrm
  set sm := derIntEncode s32 with hsm
  show derSignatureToCompact
      ([0x30, 4 + rm.length + sm.length, 0x02, rm.length] ++
        (rm ++ ([0x02, sm.length] ++ sm))) = _
  set der := [0x30, 4 + rm.length + sm.length, 0x02, rm.length] ++
      (rm ++ ([0x02, sm.length] ++ sm)) with hder
  have hlen : der.length = 6 + rm.length + sm.length := by
    simp [hder]
    omega
  have g0 : der.getD 0 0 = 0x30 := by rw [getD_drop]; rfl
  have g1 : der.getD 1 0 = 4 + rm.length + sm.length := by rw [getD_drop]; rfl
  unfold derSignatureToCompact
  rw [if_neg (by omega), if_neg (by rw [g0]; decide), if_neg (by rw [g1]; omega),
    if_pos (by rw [g1]; omega)]
  rw [derParseComponents_eval 0x30 (4 + rm.length + sm.length) rm sm hrm1 hsm1]
  rw [derFinish_of_le hrp.1 hsp.1, hrp.2, hsp.2]

/-- C2 witness: a concrete instance with `r = 1` (a short minimal encoding)
and `s` starting with byte `200` (high bit set, so the DER body carries a
leading zero byte). -/
theorem c2_der_compact_roundtrip_witness :
    (List.replicate 31 0 ++ [1] : List Nat).length = 32 ∧
      (200 :: List.replicate 31 0 : List Nat).length = 32 ∧
      derSignatureToCompact
          (derEncodeSig (List.replicate 31 0 ++ [1]) (200 :: List.replicate 31 0))
        = .ok ((List.replicate 31 0 ++ [1]) ++ (200 :: List.replicate 31 0)) :=
  ⟨by decide, by decide,
    c2_der_compact_roundtrip _ _ (by decide) (by decide)⟩

theorem derFinish_ok {r s out : List Nat} (h : derFinish r s = .ok out) :
    (stripDerPad r).length ≤ 32 ∧ (stripDerPad s).length ≤ 32 ∧
      out = rjust32 (stripDerPad r) ++ rjust32 (stripDerPad s) := by
  unfold derFinish at h
  simp only [] at h
  split at h
  · exact absurd h (by simp)
  split at h
  · exact absurd h (by simp)
  cases h
  exact ⟨by omega, by omega, rfl⟩

theorem derParseComponents_ok {der : List Nat} {i : Nat} {out : List Nat}
    (h : derParseComponents der i = .ok out) :
    ∃ r s, derFinish r s = .ok out := by
  unfold derParseComponents at h
  simp only [] at h
  repeat' split at h
  any_goals exact Except.noConfusion h
  exact ⟨_, _, h⟩

/-- C7: the DER-to-compact converter rejects with a decoding error whenever the
outer tag differs from `0x30`, the outer length byte is the indefinite-length
marker `0x80`, a component lacks the INTEGER tag `0x02` (stated for the
component parser at every offset, hence in particular the offsets the
converter uses), or a component remains longer than 32 bytes after stripping
at most one leading zero byte; and on every success the output is exactly
64 bytes: each component left-padded with zero bytes to exactly 32 bytes. -/
theorem c7_der_codec_error_handling :
    (∀ der, der.getD 0 0 ≠ 0x30 → ∃ e, derSignatureToCompact der = .error e) ∧
    (∀ der, der.getD 1 0 = 0x80 → ∃ e, derSignatureToCompact der = .error e) ∧
    (∀ der i, der.getD i 0 ≠ 0x02 → ∃ e, derParseComponents der i = .error e) ∧
    (∀ der i, der.getD (i + 2 + der.getD (i + 1) 0) 0 ≠ 0x02 →
      ∃ e, derParseComponents der i = .error e) ∧
    (∀ r s, 32 < (stripDerPad r).length ∨ 32 < (stripDerPad s).length →
      ∃ e, derFinish r s = .error e) ∧
    (∀ der out, derSignatureToCompact der = .ok out →
      out.length = 64 ∧
        ∃ r s, (stripDerPad r).length ≤ 32 ∧ (stripDerPad s).length ≤ 32 ∧
          out = rjust32 (stripDerPad r) ++ rjust32 (stripDerPad s)) := by
  refine ⟨?_, ?_, ?_, ?_, ?_, ?_⟩
  · intro der h
    unfold derSignatureToCompact
    by_cases hl : der.length < 8
    · rw [if_pos hl]; exact ⟨_, rfl⟩
    · rw [if_neg hl, if_pos h]; exact ⟨_, rfl⟩
  · intro der h
    unfold derSignatureToCompact
    by_cases hl : der.length < 8
    · rw [if_pos hl]; exact ⟨_, rfl⟩
    rw [if_neg hl]
    by_cases h0 : der.getD 0 0 ≠ 0x30
    · rw [if_pos h0]; exact ⟨_, rfl⟩
    rw [if_neg h0, if_pos h]
    exact ⟨_, rfl⟩
  · intro der i h
    unfold derParseComponents
    simp only []
    by_cases h1 : der.length ≤ i + 1
    · rw [if_pos h1]; exact ⟨_, rfl⟩
    rw [if_neg h1, if_pos h]
    exact ⟨_, rfl⟩
  · intro der i h
    unfold derParseComponents
    simp only []
    by_cases h1 : der.length ≤ i + 1
    · rw [if_pos h1]; exact ⟨_, rfl⟩
    rw [if_neg h1]
    by_cases h2 : der.getD i 0 ≠ 0x02
    · rw [if_pos h2]; exact ⟨_, rfl⟩
    rw [if_neg h2]
    by_cases h3 : der.length < i + 2 + der.getD (i + 1) 0
    · rw [if_pos h3]; exact ⟨_, rfl⟩
    rw [if_neg h3]
    by_cases h4 : der.length ≤ i + 2 + der.getD (i + 1) 0 + 1
    · rw [if_pos h4]; exact ⟨_, rfl⟩
    rw [if_neg h4, if_pos h]
    exact ⟨_, rfl⟩
  · intro r s h
    unfold derFinish
    simp only []
    rcases h with h | h
    · rw [if_pos h]; exact ⟨_, rfl⟩
    by_cases h1 : 32 < (stripDerPad r).length
    · rw [if_pos h1]; exact ⟨_, rfl⟩
    rw [if_neg h1, if_pos h]
    exact ⟨_, rfl⟩
  · intro der out h
    have hok : ∃ r s, derFinish r s = .ok out := by
      unfold derSignatureToCompact at h
      simp only [] at h
      repeat' split at h
      any_goals exact Except.noConfusion h
      all_goals exact derParseComponents_ok h
    obtain ⟨r, s, hf⟩ := hok
    obtain ⟨h1, h2, h3⟩ := derFinish_ok hf
    refine ⟨?_, r, s, h1, h2, h3⟩
    rw [h3, List.length_append, rjust32_length_of_le h1, rjust32_length_of_le h2]

/-- C7 witness: a wrong outer tag at a concrete input is rejected. -/
theorem c7_der_codec_error_handling_witness :
    (([0x31, 0, 0, 0, 0, 0, 0, 0] : List Nat).getD 0 0 ≠ 0x30) ∧
      ∃ e, derSignatureToCompact [0x31, 0, 0, 0, 0, 0, 0, 0] = .error e :=
  ⟨by decide, c7_der_codec_error_handling.1 _ (by decide)⟩

/-! ## ContractRouter: `ContractId` and `pod_counter` (`contract.py`)

`pod_counter` calls Python's `base64.b32decode(self._value.upper() + "=" * pad)`
with `pad = (8 - len % 8) % 8`.  The embedding below reproduces CPython's
`base64._b32decode`: the padded input (always a multiple of 8 long) is
right-stripped of `=`, every remaining character must be in the RFC 4648
upper-case alphabet, the pad-character count must be one of 0/1/3/4/6, and the
5-bit groups are concatenated big-endian with the trailing excess bits
discarded. -/

/-- Python `str.upper()` restricted to ASCII (all inputs of interest are
ASCII). -/
def pyUpper (c : Char) : Char :=
  if 'a' ≤ c ∧ c ≤ 'z' then Char.ofNat (c.toNat - 32) else c

/-- RFC 4648 base-32 value of an upper-case alphabet character. -/
def b32val (c : Char) : Option Nat :=
  if 'A' ≤ c ∧ c ≤ 'Z' then some (c.toNat - 'A'.toNat)
  else if '2' ≤ c ∧ c ≤ '7' then some (c.toNat - '2'.toNat + 26)
  else none

/-- `bytes.rstrip(b"=")`: drop the trailing run of `=` characters. -/
def stripTrailingEq (l : List Char) : List Char :=
  (l.reverse.dropWhile (· = '=')).reverse

/-- Reassemble the concatenated 5-bit groups into bytes, discarding the
excess trailing bits (CPython keeps `⌊5·n/8⌋` bytes). -/
def b32bytes (vals : List Nat) : List Nat :=
  let n := vals.length
  let acc := vals.foldl (fun a v => a * 32 + v) 0
  (List.range (5 * n / 8)).map (fun i => acc / 2 ^ (5 * n - 8 * (i + 1)) % 256)

/-- `base64.b32decode(s.upper() + "=" * ((8 - len(s) % 8) % 8))` as called by
`ContractId.pod_counter`; `none` models any raised `binascii.Error`. -/
def b32decodePy (s : String) : Option (List Nat) :=
  let u := s.data.map pyUpper
  let padded := u.length + (8 - u.length % 8) % 8
  let stripped := stripTrailingEq u
  let padchars := padded - stripped.length
  if stripped.any (fun c => (b32val c).isNone) then none
  else if padchars = 0 ∨ padchars = 1 ∨ padchars = 3 ∨ padchars = 4 ∨ padchars = 6 then
    some (b32bytes (stripped.map (fun c => (b32val c).getD 0)))
  else none

/-- `struct.unpack(">i", b)[0]` for a 4-byte string: big-endian unsigned
value, reinterpreted as a signed 32-bit integer. -/
def toInt32BE (b : List Nat) : Int :=
  let u : Nat := b.foldl (fun a v => a * 256 + v) 0
  if u < 2 ^ 31 then (u : Int) else (u : Int) - 2 ^ 32

/-- `ContractId` (`contract.py`): wraps the canonical string form. -/
structure ContractId where
  value : String
  deriving DecidableEq, Repr

/-- `ContractId._validate` (`contract.py` lines 21-24): deliberately a no-op
("Rust has validate_contract_id_str as TODO (no-op); we do the same"). -/
def validateContractIdStr (s : String) : Except PyExc String :=
  .ok s

/-- `ContractId.__init__` / `ContractId.new`: store the validated value. -/
def contractIdNew (s : String) : Except PyExc ContractId :=
  match validateContractIdStr s with
  | .ok v => .ok ⟨v⟩
  | .error e => .error e

/-- Message text of a Python exception, as `str(e)` would render it. -/
def pyExcMsg : PyExc → String
  | .valueError m => m
  | .invalidContractIdError m => m
  | .typeError => "TypeError"
  | .attributeError => "AttributeError"

/-- `contract_id_from_str` (`contract.py` lines 60-65): wrap any construction
failure in `InvalidContractIdError`. -/
def contractIdFromStr (s : String) : Except PyExc ContractId :=
  match contractIdNew s with
  | .ok c => .ok c
  | .error e => .error (.invalidContractIdError (pyExcMsg e))

/-- `ContractId.pod_counter` (`contract.py` lines 26-43). -/
def podCounter (c : ContractId) : Except PyExc Int :=
  match b32decodePy c.value with
  | none => .error (.valueError "base32 decoding failed")
  | some decoded =>
    if decoded.length ≠ 36 then
      .error (.valueError ("invalid contract-id: expected 36 bytes long, got "
        ++ toString decoded.length ++ " bytes"))
    else .ok (toInt32BE (decoded.take 4))

/-- A contract-id string whose base-32 decode is the 36 bytes
`0x00 0x00 0x00 0x05` followed by 32 zero bytes. -/
def podFiveId : String := "aaaaabiaaaaaaaaaaaaaaaaaaaaaaaaaaaaaaaaaaaaaaaaaaaaaaaaaaa"

/-- A contract-id string whose base-32 decode is 35 bytes (56 characters,
280 bits, 35 bytes). -/
def pod35Id : String := "aaaaaaaaaaaaaaaaaaaaaaaaaaaaaaaaaaaaaaaaaaaaaaaaaaaaaaaa"

/-- C5 counterexample: on a contract id whose decode is 35 bytes long,
`pod_counter` raises `ValueError`, not the `InvalidContractIdError` kind that
`errors.py` defines and the claim names. -/
theorem c5_counterexample_pod_counter_error_kind :
    podCounter ⟨pod35Id⟩
        = .error (.valueError "invalid contract-id: expected 36 bytes long, got 35 bytes") ∧
      ∀ m, podCounter ⟨pod35Id⟩ ≠ .error (.invalidContractIdError m) := by
  have h1 : podCounter ⟨pod35Id⟩
      = .error (.valueError "invalid contract-id: expected 36 bytes long, got 35 bytes") := by
    decide
  refine ⟨h1, fun m h => ?_⟩
  rw [h1] at h
  simp at h

/-- C5 (amended): `pod_counter` decodes the identifier as base-32
(upper-cased, RFC 4648 alphabet, CPython padding rules); on a 36-byte decode
it returns the first 4 bytes as a big-endian signed 32-bit integer — in
particular first bytes `0x00 0x00 0x00 0x05` yield 5; when decoding fails or
the decoded length differs from 36 (e.g. 35 bytes) it raises `ValueError`
(the claim's `InvalidContractId` kind is never raised by `pod_counter`). -/
theorem c5_pod_counter_routing :
    (∀ c : ContractId, b32decodePy c.value = none →
      podCounter c = .error (.valueError "base32 decoding failed")) ∧
    (∀ (c : ContractId) (decoded : List Nat), b32decodePy c.value = some decoded →
      decoded.length ≠ 36 →
      podCounter c = .error (.valueError ("invalid contract-id: expected 36 bytes long, got "
        ++ toString decoded.length ++ " bytes"))) ∧
    (∀ (c : ContractId) (decoded : List Nat), b32decodePy c.value = some decoded →
      decoded.length = 36 →
      podCounter c = .ok (toInt32BE (decoded.take 4))) ∧
    (b32decodePy podFiveId = some ([0, 0, 0, 5] ++ List.replicate 32 0) ∧
      podCounter ⟨podFiveId⟩ = .ok 5) ∧
    podCounter ⟨pod35Id⟩
      = .error (.valueError "invalid contract-id: expected 36 bytes long, got 35 bytes") := by
  refine ⟨?_, ?_, ?_, ⟨by decide, by decide⟩, by decide⟩
  · intro c h
    simp only [podCounter, h]
  · intro c decoded h h36
    simp only [podCounter, h]
    rw [if_pos h36]
  · intro c decoded h h36
    simp only [podCounter, h]
    rw [if_neg (by simp [h36])]

/-- C5 witness: the theorem applied to a concrete undecodable id. -/
theorem c5_pod_counter_routing_witness :
    b32decodePy "!" = none ∧
      podCounter ⟨"!"⟩ = .error (.valueError "base32 decoding failed") :=
  ⟨by decide, c5_pod_counter_routing.1 ⟨"!"⟩ (by decide)⟩

/-- C9: `ContractId` construction is total over strings: the validation step
is a no-op returning the input unchanged, so `ContractId(s)` and
`contract_id_from_str(s)` succeed for every string (including the empty
string and non-alphabet strings); a malformed identifier is only detected
later, when `pod_counter` is called on it. -/
theorem c9_contract_id_construction_total :
    (∀ s : String, validateContractIdStr s = .ok s) ∧
    (∀ s : String, contractIdNew s = .ok ⟨s⟩) ∧
    (∀ s : String, contractIdFromStr s = .ok ⟨s⟩) ∧
    contractIdFromStr "" = .ok ⟨""⟩ ∧
    contractIdFromStr "!" = .ok ⟨"!"⟩ ∧
    podCounter ⟨"!"⟩ = .error (.valueError "base32 decoding failed") :=
  ⟨fun _ => rfl, fun _ => rfl, fun _ => rfl, rfl, rfl, by decide⟩

/-! ## CanonicalEncoder: `json.dumps(..., separators=(",", ":"), sort_keys=True)`

The JSON values the SDK serializes are strings, integers, booleans and string-
keyed objects (`client.py` and `auth.py` build nothing else).  `dumpJ` mirrors
CPython's `json.dumps` with `ensure_ascii=True` (the default), compact
separators and `sort_keys=True`: keys are sorted at every nesting level at
serialization time. -/

def hexDigitChar (n : Nat) : Char :=
  "0123456789abcdef".data.getD n '0'

/-- `\uXXXX` escape for a code unit below `0x10000` (lowercase hex digits,
as CPython emits). -/
def uEscape (n : Nat) : String :=
  String.mk ['\\', 'u', hexDigitChar (n / 4096 % 16), hexDigitChar (n / 256 % 16),
    hexDigitChar (n / 16 % 16), hexDigitChar (n % 16)]

/-- CPython `json.encoder.py_encode_basestring_ascii`, per character:
`"` and `\` get backslash escapes, the five control shortcuts apply, other
characters outside `0x20..0x7e` become `\uXXXX` (with surrogate pairs above
the BMP), everything else passes through. -/
def jsonEscapeChar (c : Char) : String :=
  if c = '"' then "\\\""
  else if c = '\\' then "\\\\"
  else if c = '\n' then "\\n"
  else if c = '\r' then "\\r"
  else if c = '\t' then "\\t"
  else if c.toNat = 8 then "\\b"
  else if c.toNat = 12 then "\\f"
  else if 0x20 ≤ c.toNat ∧ c.toNat ≤ 0x7e then String.mk [c]
  else if c.toNat < 0x10000 then uEscape c.toNat
  else
    uEscape (0xD800 + (c.toNat - 0x10000) / 0x400) ++ uEscape (0xDC00 + (c.toNat - 0x10000) % 0x400)

def jsonEscape (s : String) : String :=
  String.join (s.data.map jsonEscapeChar)

/-- JSON rendering of a Python string: quotes around the escaped body. -/
def jstr (s : String) : String :=
  "\"" ++ jsonEscape s ++ "\""

/-- The JSON values appearing in the SDK's signing payloads. -/
inductive J where
  | str (s : String)
  | int (n : Int)
  | bool (b : Bool)
  | obj (fields : List (String × J))

/-- Python string `<`: lexicographic comparison by code point. -/
def strLtB : List Char → List Char → Bool
  | [], [] => false
  | [], _ :: _ => true
  | _ :: _, [] => false
  | a :: as, b :: bs =>
    if a.toNat < b.toNat then true
    else if b.toNat < a.toNat then false
    else strLtB as bs

/-- Stable insertion (by strict key comparison) used to model Python's
stable `sorted(...)` over dict items. -/
def insertPair (p : String × J) : List (String × J) → List (String × J)
  | [] => [p]
  | q :: rest => if strLtB p.1.data q.1.data then p :: q :: rest else q :: insertPair p rest

/-- `sorted(d.items())`: stable sort of key/value pairs by key. -/
def sortPairs (l : List (String × J)) : List (String × J) :=
  l.foldr insertPair []

theorem sizeOf_insertPair (p : String × J) (l : List (String × J)) :
    sizeOf (insertPair p l) = 1 + sizeOf p + sizeOf l := by
  induction l with
  | nil => simp [insertPair]
  | cons q rest ih =>
    unfold insertPair
    by_cases h : strLtB p.1.data q.1.data = true
    · simp only [if_pos h]
      simp
      try omega
    · simp only [Bool.not_eq_true] at h
      simp only [h, if_false]
      simp [ih]
      try omega

theorem sizeOf_sortPairs (l : List (String × J)) : sizeOf (sortPairs l) = sizeOf l := by
  induction l with
  | nil => rfl
  | cons p rest ih =>
    show sizeOf (insertPair p (sortPairs rest)) = _
    rw [sizeOf_insertPair, ih]
    simp
    try omega

mutual

/-- `json.dumps(v, separators=(",", ":"), sort_keys=True)`. -/
def dumpJ : J → String
  | .str s => jstr s
  | .int n => toString n
  | .bool b => if b then "true" else "false"
  | .obj fs => "\x7b" ++ dumpFields (sortPairs fs) ++ "\x7d"
termination_by j => sizeOf j
decreasing_by
  all_goals (simp [sizeOf_sortPairs]; try omega)

/-- Comma-joined `key:value` items of an object body. -/
def dumpFields : List (String × J) → String
  | [] => ""
  | [(k, v)] => jstr k ++ ":" ++ dumpJ v
  | (k, v) :: rest => jstr k ++ ":" ++ dumpJ v ++ "," ++ dumpFields rest
termination_by l => sizeOf l
decreasing_by
  all_goals (simp; try omega)

end

/-! ## TransactionSigner: `transaction.py` / `client.py` -/

/-- `TransactionHeader` (`transaction.py` lines 21-43). -/
structure TransactionHeader where
  nonce : Int
  public_key : String
  from_addr : String
  to_addr : String
  signature : Option String := none
  weilpod_counter : Int := 0
  creation_time : Int := 0
  deriving DecidableEq, Repr

/-- `TransactionHeader.__post_init__`: a zero `creation_time` is replaced by
the current time in milliseconds (`now`, passed explicitly here because the
embedding is pure). -/
def TransactionHeader.make (nonce : Int) (public_key from_addr to_addr : String)
    (signature : Option String) (weilpod_counter : Int) (creation_time : Int)
    (now : Int) : TransactionHeader :=
  { nonce, public_key, from_addr, to_addr, signature, weilpod_counter,
    creation_time := if creation_time = 0 then now else creation_time }

/-- The `args` dict built by `WeilContractClient._sign_and_construct_txn`
(`client.py` lines 252-257). -/
structure ExecArgs where
  contract_address : ContractId
  contract_method : String
  contract_input_bytes : String
  should_hide_args : Bool
  deriving DecidableEq, Repr

/-- The `payload` dict of `_sign_execute_args` (`client.py` lines 284-296):
top-level insertion order `from_addr, nonce, to_addr, user_txn`; inner
`user_txn` insertion order `type, contract_address, contract_method,
contract_input_bytes, should_hide_args`; the contract address is rendered
with `str(...)`. -/
def signExecutePayloadFields (h : TransactionHeader) (args : ExecArgs) :
    List (String × J) :=
  [("from_addr", .str h.from_addr),
   ("nonce", .int h.nonce),
   ("to_addr", .str h.to_addr),
   ("user_txn", .obj
     [("type", .str "SmartContractExecutor"),
      ("contract_address", .str args.contract_address.value),
      ("contract_method", .str args.contract_method),
      ("contract_input_bytes", .str args.contract_input_bytes),
      ("should_hide_args", .bool args.should_hide_args)])]

/-- `_sign_execute_args` (`client.py` lines 274-301) up to the `wallet.sign`
call: `canonical = dict(sorted(payload.items()))` followed by
`json.dumps(canonical, separators=(",", ":"), sort_keys=True)`.  The UTF-8
encoding of this string is the byte sequence that is SHA-256-hashed and
signed. -/
def signExecuteArgsMessage (h : TransactionHeader) (args : ExecArgs) : String :=
  dumpJ (.obj (sortPairs (signExecutePayloadFields h args)))

/-- The envelope-signing profile as the spec words it: the compact JSON
serialization (separators `,` and `:`, no whitespace) of the mapping with
keys `from_addr, nonce, to_addr, user_txn` — `user_txn` the nested mapping
with keys `type, contract_address, contract_method, contract_input_bytes,
should_hide_args` — with keys at every nesting level written out in
lexicographic order, and the contract address rendered as its canonical
string form. -/
def canonicalEnvelopeProfile (from_addr : String) (nonce : Int) (to_addr : String)
    (contract_address contract_method contract_input_bytes : String)
    (should_hide_args : Bool) : String :=
  "\x7b" ++ jstr "from_addr" ++ ":" ++ jstr from_addr
    ++ "," ++ jstr "nonce" ++ ":" ++ toString nonce
    ++ "," ++ jstr "to_addr" ++ ":" ++ jstr to_addr
    ++ "," ++ jstr "user_txn" ++ ":"
    ++ ("\x7b" ++ jstr "contract_address" ++ ":" ++ jstr contract_address
      ++ "," ++ jstr "contract_input_bytes" ++ ":" ++ jstr contract_input_bytes
      ++ "," ++ jstr "contract_method" ++ ":" ++ jstr contract_method
      ++ "," ++ jstr "should_hide_args" ++ ":" ++ (if should_hide_args then "true" else "false")
      ++ "," ++ jstr "type" ++ ":" ++ jstr "SmartContractExecutor"
      ++ "\x7d")
    ++ "\x7d"

theorem sortPairs_top (A B C D : J) :
    sortPairs [("from_addr", A), ("nonce", B), ("to_addr", C), ("user_txn", D)]
      = [("from_addr", A), ("nonce", B), ("to_addr", C), ("user_txn", D)] := rfl

theorem sortPairs_user_txn (A B C D E : J) :
    sortPairs [("type", A), ("contract_address", B), ("contract_method", C),
        ("contract_input_bytes", D), ("should_hide_args", E)]
      = [("contract_address", B), ("contract_input_bytes", D), ("contract_method", C),
        ("should_hide_args", E), ("type", A)] := rfl

/-- C1: the string whose UTF-8 bytes are hashed and signed by
`_sign_execute_args` is exactly the compact, fully-key-sorted JSON
serialization of the envelope mapping, with the contract address rendered as
its canonical string form. -/
theorem c1_signing_bytes_canonical (h : TransactionHeader) (args : ExecArgs) :
    signExecuteArgsMessage h args
      = canonicalEnvelopeProfile h.from_addr h.nonce h.to_addr
          args.contract_address.value args.contract_method
          args.contract_input_bytes args.should_hide_args := by
  apply String.ext
  simp only [signExecuteArgsMessage, signExecutePayloadFields, canonicalEnvelopeProfile,
    sortPairs_top, sortPairs_user_txn, dumpJ, dumpFields]
  simp [List.append_assoc]

/-! ## `_build_submit_payload` (`client.py` lines 191-221) and `api/request.py` -/

/-- `Verifier` (`api/request.py`). -/
structure Verifier where
  ty : String := "DefaultVerifier"
  deriving DecidableEq, Repr

/-- `UserTransaction` (`api/request.py`). -/
structure UserTransaction where
  ty : String := "SmartContractExecutor"
  contract_address : Option ContractId := none
  contract_method : String := ""
  contract_input_bytes : Option String := none
  should_hide_args : Bool := true
  deriving DecidableEq, Repr

/-- `Transaction` (`api/request.py`). -/
structure Transaction where
  is_xpod : Bool := false
  txn_header : Option TransactionHeader := none
  verifier : Option Verifier := none
  user_txn : Option UserTransaction := none
  deriving DecidableEq, Repr

/-- `SubmitTxnRequest` (`api/request.py`). -/
structure SubmitTxnRequest where
  transaction : Option Transaction := none
  deriving DecidableEq, Repr

/-- `BaseTransaction` (`transaction.py`). -/
structure BaseTransaction where
  header : TransactionHeader
  deriving DecidableEq, Repr

/-- `WeilClient._build_submit_payload` (`client.py` lines 191-221): rebuild
the header with a fresh `creation_time` (`now`, the value of
`int(current_time_millis())` at packaging time), copy every other header
field from the signed header, and attach the given signature. -/
def buildSubmitPayload (signature : String) (base_txn : BaseTransaction)
    (args : ExecArgs) (now : Int) : SubmitTxnRequest :=
  let h := base_txn.header
  let req_header := TransactionHeader.make h.nonce h.public_key h.from_addr h.to_addr
    (some signature) h.weilpod_counter now now
  let user_txn : UserTransaction :=
    { ty := "SmartContractExecutor"
      contract_address := some args.contract_address
      contract_method := args.contract_method
      contract_input_bytes := some args.contract_input_bytes
      should_hide_args := args.should_hide_args }
  let txn : Transaction :=
    { is_xpod := false
      txn_header := some req_header
      verifier := some {}
      user_txn := some user_txn }
  { transaction := some txn }

/-- The header carried by the submitted payload, when all parts are present. -/
def SubmitTxnRequest.submittedHeader (r : SubmitTxnRequest) : Option TransactionHeader :=
  r.transaction.bind (·.txn_header)

/-- C6: the submitted header carries the freshly read packaging-time
`creation_time` while `nonce`, `public_key`, `from_addr`, `to_addr` and
`weilpod_counter` are copied unchanged from the signed header; the attached
signature is the one computed earlier, and the signed message does not
mention `creation_time` at all, so two packagings at different times carry
the identical signature and re-signing is never required. -/
theorem c6_fresh_creation_time_signature_unchanged (sig : String)
    (b : BaseTransaction) (args : ExecArgs) (t1 t2 : Int) :
    ((buildSubmitPayload sig b args t1).submittedHeader.map (·.creation_time) = some t1) ∧
    ((buildSubmitPayload sig b args t1).submittedHeader.map (·.nonce) = some b.header.nonce) ∧
    ((buildSubmitPayload sig b args t1).submittedHeader.map (·.public_key) = some b.header.public_key) ∧
    ((buildSubmitPayload sig b args t1).submittedHeader.map (·.from_addr) = some b.header.from_addr) ∧
    ((buildSubmitPayload sig b args t1).submittedHeader.map (·.to_addr) = some b.header.to_addr) ∧
    ((buildSubmitPayload sig b args t1).submittedHeader.map (·.weilpod_counter) = some b.header.weilpod_counter) ∧
    ((buildSubmitPayload sig b args t1).submittedHeader.map (·.signature) = some (some sig)) ∧
    ((buildSubmitPayload sig b args t2).submittedHeader.map (·.signature) = some (some sig)) ∧
    (∀ (h : TransactionHeader) (c : Int),
      signExecuteArgsMessage { h with creation_time := c } args = signExecuteArgsMessage h args) := by
  refine ⟨?_, rfl, rfl, rfl, rfl, rfl, rfl, rfl, fun h c => rfl⟩
  simp [buildSubmitPayload, TransactionHeader.make, SubmitTxnRequest.submittedHeader]

/-! ## AuthHeaderProtocol (`weil_ai/auth.py`)

The cryptographic collaborators (SHA-256, secp256k1 key handling, compact
signing, public-key recovery) are opaque library calls in the code; here they
form a `CryptoModel` parameter.  Public keys and private keys are abstract
`Nat` identifiers; byte strings are `List Nat`. -/

/-- `bytes.hex()`: two lowercase hex digits per byte. -/
def hexEncode (bs : List Nat) : String :=
  String.mk (bs.flatMap fun b => [hexDigitChar (b / 16 % 16), hexDigitChar (b % 16)])

def hexVal (c : Char) : Option Nat :=
  if '0' ≤ c ∧ c ≤ '9' then some (c.toNat - '0'.toNat)
  else if 'a' ≤ c ∧ c ≤ 'f' then some (c.toNat - 'a'.toNat + 10)
  else if 'A' ≤ c ∧ c ≤ 'F' then some (c.toNat - 'A'.toNat + 10)
  else none

/-- `bytes.fromhex` on a string without whitespace: pairs of hex digits;
`none` models the raised `ValueError`. -/
def hexDecode : List Char → Option (List Nat)
  | [] => some []
  | [_] => none
  | c1 :: c2 :: rest =>
    match hexVal c1, hexVal c2 with
    | some h1, some h2 => (hexDecode rest).map (fun t => (h1 * 16 + h2) :: t)
    | _, _ => none

/-- Python `str.lower()` restricted to ASCII. -/
def pyLower (c : Char) : Char :=
  if 'A' ≤ c ∧ c ≤ 'Z' then Char.ofNat (c.toNat + 32) else c

def strLower (s : String) : String :=
  String.mk (s.data.map pyLower)

/-- `str.encode("utf-8")` abstracted to the character scalar values (the
hash functions consuming these bytes are abstract, so any injective
encoding is adequate). -/
def strBytes (s : String) : List Nat :=
  s.data.map Char.toNat

def digitChar (n : Nat) : Char :=
  "0123456789".data.getD n '0'

/-- Little-endian decimal digits of a natural number (always nonempty). -/
def natDigitsRev (n : Nat) : List Char :=
  if _h : n < 10 then [digitChar n]
  else digitChar (n % 10) :: natDigitsRev (n / 10)
decreasing_by exact Nat.div_lt_self (by omega) (by omega)

/-- Python `str(n)` for a non-negative integer. -/
def natToStr (n : Nat) : String :=
  String.mk (natDigitsRev n).reverse

def digitVal (c : Char) : Option Nat :=
  if '0' ≤ c ∧ c ≤ '9' then some (c.toNat - 48) else none

def parseDigitsAux : List Char → Nat → Option Nat
  | [], acc => some acc
  | c :: rest, acc =>
    match digitVal c with
    | some d => parseDigitsAux rest (acc * 10 + d)
    | none => none

/-- Python `int(s)`: optional surrounding spaces, optional sign, at least one
decimal digit; `none` models the raised `ValueError`. -/
def parsePyInt (s : String) : Option Int :=
  let t := ((s.data.dropWhile (· = ' ')).reverse.dropWhile (· = ' ')).reverse
  match t with
  | [] => none
  | c :: rest =>
    if c = '-' then
      if rest = [] then none else (parseDigitsAux rest 0).map (fun n => -(n : Int))
    else if c = '+' then
      if rest = [] then none else (parseDigitsAux rest 0).map (fun n => (n : Int))
    else (parseDigitsAux (c :: rest) 0).map (fun n => (n : Int))

/-- The external cryptographic collaborators, as used by `wallet.py` and
`auth.py`: `sha256` is `hashlib.sha256(·).digest()`, `formatUncompressed`
is coincurve's `PublicKey.format(compressed=False)`, `pubkey` maps a private
key to its public key, `signCompact` is ECDSA signing of a digest already
converted to the 64-byte compact form (`Wallet.sign` = DER sign +
`_der_signature_to_compact`), and `recover` is
`PublicKey.from_signature_and_message` on `r‖s‖recovery_id` (`none` models a
raised exception). -/
structure CryptoModel where
  sha256 : List Nat → List Nat
  formatUncompressed : Nat → List Nat
  pubkey : Nat → Nat
  signCompact : Nat → List Nat → List Nat
  recover : List Nat → List Nat → Nat → Option Nat

/-- `utils.get_address_from_public_key`: lowercase hex of the SHA-256 of the
uncompressed public key bytes. -/
def getAddressFromPublicKey (C : CryptoModel) (pub : Nat) : String :=
  hexEncode (C.sha256 (C.formatUncompressed pub))

/-- `Wallet.sign` (`wallet.py` lines 73-83): SHA-256 the buffer, sign, return
the compact signature hex-encoded. -/
def walletSign (C : CryptoModel) (k : Nat) (buf : List Nat) : String :=
  hexEncode (C.signCompact k (C.sha256 buf))

/-- The four auth headers. -/
structure AuthHeaders where
  address : String
  signature : String
  message : String
  timestamp : String
  deriving DecidableEq, Repr

/-- `build_auth_headers` (`auth.py` lines 29-53), with the current Unix time
in whole seconds passed as `now`. -/
def buildAuthHeaders (C : CryptoModel) (k : Nat) (now : Nat) : AuthHeaders :=
  let timestamp := natToStr now
  let json_str := dumpJ (.obj [("timestamp", .str timestamp)])
  let signature := walletSign C k (strBytes json_str)
  let address := getAddressFromPublicKey C (C.pubkey k)
  { address, signature, message := json_str, timestamp }

/-- `verify_weil_signature` (`auth.py` lines 56-123).  Each argument is
`Option String` because the middleware passes `request.headers.get(...)`,
which is `None` for a missing header.  Uncaught Python exceptions surface as
`.error`: `int(None)` raises `TypeError` but is caught; `None.encode(...)`
(message) raises `AttributeError` and `bytes.fromhex(None)` (signature)
raises `TypeError`, neither of which is caught; exceptions inside the
recovery loop (including `None.lower()` for a missing wallet address) are
caught and treated as a failed attempt. -/
def verifyWeilSignature (C : CryptoModel) (now : Int) (maxAge : Int)
    (wallet_address signature_hex message timestamp : Option String) :
    Except PyExc Bool :=
  let tsv : Option Int :=
    match timestamp with
    | none => none
    | some t => parsePyInt t
  match tsv with
  | none => .ok false
  | some ts =>
    if maxAge < ((now - ts).natAbs : Int) then .ok false
    else
      match message with
      | none => .error .attributeError
      | some msg =>
        let digest := C.sha256 (strBytes msg)
        match signature_hex with
        | none => .error .typeError
        | some sh =>
          match hexDecode sh.data with
          | none => .ok false
          | some sigBytes =>
            if sigBytes.length ≠ 64 then .ok false
            else
              let tryRid : Nat → Bool := fun rid =>
                match C.recover sigBytes digest rid with
                | none => false
                | some pub =>
                  match wallet_address with
                  | none => false
                  | some wa =>
                    hexEncode (C.sha256 (C.formatUncompressed pub)) == strLower wa
              .ok (tryRid 0 || tryRid 1)

/-! ### Lemmas about the encodings used by the auth protocol -/

theorem hexVal_hexDigitChar : ∀ n < 16, hexVal (hexDigitChar n) = some n := by decide

theorem hexDecode_hexEncode {bs : List Nat} (h : ∀ b ∈ bs, b < 256) :
    hexDecode (hexEncode bs).data = some bs := by
  induction bs with
  | nil => rfl
  | cons b rest ih =>
    have hb : b < 256 := h b (by simp)
    have ih' := ih (fun x hx => h x (by simp [hx]))
    unfold hexEncode at ih' ⊢
    simp only [String.data, List.flatMap_cons, List.cons_append, List.nil_append] at ih' ⊢
    unfold hexDecode
    rw [hexVal_hexDigitChar _ (by omega), hexVal_hexDigitChar _ (by omega)]
    simp only []
    rw [ih']
    simp [show b / 16 % 16 * 16 + b % 16 = b by omega]

theorem hexEncode_length (bs : List Nat) : (hexEncode bs).length = 2 * bs.length := by
  induction bs with
  | nil => rfl
  | cons b rest ih =>
    unfold hexEncode at ih ⊢
    simp only [String.length] at ih ⊢
    simp [List.flatMap_cons] at ih ⊢
    try omega

theorem pyLower_hexDigitChar (m : Nat) : pyLower (hexDigitChar m) = hexDigitChar m := by
  by_cases h : m < 16
  · exact (by decide : ∀ x < 16, pyLower (hexDigitChar x) = hexDigitChar x) m h
  · unfold hexDigitChar
    rw [List.getD_eq_default]
    · decide
    · simp
      omega

theorem hexDigitChar_mem (m : Nat) : hexDigitChar m ∈ "0123456789abcdef".data := by
  by_cases h : m < 16
  · exact (by decide : ∀ x < 16, hexDigitChar x ∈ "0123456789abcdef".data) m h
  · unfold hexDigitChar
    rw [List.getD_eq_default]
    · decide
    · simp
      omega

theorem map_pyLower_hexFlat (bs : List Nat) :
    List.map pyLower (bs.flatMap fun b => [hexDigitChar (b / 16 % 16), hexDigitChar (b % 16)])
      = bs.flatMap fun b => [hexDigitChar (b / 16 % 16), hexDigitChar (b % 16)] := by
  induction bs with
  | nil => rfl
  | cons b rest ih =>
    simp only [List.flatMap_cons, List.map_append, List.map_cons, List.map_nil]
    rw [pyLower_hexDigitChar, pyLower_hexDigitChar, ih]

theorem strLower_hexEncode (bs : List Nat) : strLower (hexEncode bs) = hexEncode bs := by
  unfold strLower hexEncode
  congr 1
  exact map_pyLower_hexFlat bs

/-! ### Decimal string round trip -/

theorem natDigitsRev_ne_nil (n : Nat) : natDigitsRev n ≠ [] := by
  unfold natDigitsRev
  split <;> simp

def revDigitsVal : List Char → Nat
  | [] => 0
  | c :: rest => (c.toNat - 48) + 10 * revDigitsVal rest

theorem digitChar_toNat : ∀ m < 10, (digitChar m).toNat = m + 48 := by decide

theorem digitChar_is_digit : ∀ m < 10, '0' ≤ digitChar m ∧ digitChar m ≤ '9' := by decide

theorem revDigitsVal_natDigitsRev (n : Nat) : revDigitsVal (natDigitsRev n) = n := by
  induction n using Nat.strong_induction_on with
  | _ n ih =>
    unfold natDigitsRev
    by_cases h : n < 10
    · rw [dif_pos h]
      simp [revDigitsVal, digitChar_toNat n h]
    · rw [dif_neg h]
      simp [revDigitsVal, ih (n / 10) (Nat.div_lt_self (by omega) (by omega)),
        digitChar_toNat (n % 10) (by omega)]
      omega

theorem natDigitsRev_all_digits (n : Nat) :
    ∀ c ∈ natDigitsRev n, '0' ≤ c ∧ c ≤ '9' := by
  induction n using Nat.strong_induction_on with
  | _ n ih =>
    unfold natDigitsRev
    by_cases h : n < 10
    · rw [dif_pos h]
      intro c hc
      simp at hc
      subst hc
      exact digitChar_is_digit n h
    · rw [dif_neg h]
      intro c hc
      rcases List.mem_cons.mp hc with hc | hc
      · subst hc
        exact digitChar_is_digit (n % 10) (by omega)
      · exact ih (n / 10) (Nat.div_lt_self (by omega) (by omega)) c hc

theorem digitVal_of_digit {c : Char} (h : '0' ≤ c ∧ c ≤ '9') :
    digitVal c = some (c.toNat - 48) := by
  unfold digitVal
  rw [if_pos h]

theorem parseDigitsAux_append (xs : List Char) (c : Char) (acc : Nat) :
    parseDigitsAux (xs ++ [c]) acc =
      match parseDigitsAux xs acc, digitVal c with
      | some v, some d => some (v * 10 + d)
      | _, _ => none := by
  induction xs generalizing acc with
  | nil =>
    show parseDigitsAux [c] acc = _
    unfold parseDigitsAux
    cases hd : digitVal c <;> simp [parseDigitsAux, hd]
  | cons x xs ih =>
    show parseDigitsAux (x :: (xs ++ [c])) acc = _
    unfold parseDigitsAux
    cases hx : digitVal x
    · cases hd : digitVal c <;> simp
    · simp only []
      rw [ih]

theorem parse_reverse_digits (l : List Char) (hdig : ∀ c ∈ l, '0' ≤ c ∧ c ≤ '9') :
    parseDigitsAux l.reverse 0 = some (revDigitsVal l) := by
  induction l with
  | nil => rfl
  | cons c rest ih =>
    rw [List.reverse_cons, parseDigitsAux_append,
      ih (fun x hx => hdig x (by simp [hx])),
      digitVal_of_digit (hdig c (by simp))]
    simp [revDigitsVal]
    omega

theorem dropWhile_eq_self_of_not {p : Char → Bool} {l : List Char}
    (h : ∀ c ∈ l, ¬ p c) : l.dropWhile p = l := by
  cases l with
  | nil => rfl
  | cons c rest =>
    rw [List.dropWhile_cons_of_neg]
    simpa using h c (by simp)

/-- `int(str(n)) = n` for the decimal rendering of a natural number. -/
theorem parsePyInt_natToStr (n : Nat) : parsePyInt (natToStr n) = some (n : Int) := by
  have hdig := natDigitsRev_all_digits n
  have hno : ∀ c ∈ (natDigitsRev n).reverse, ¬ ((· = ' ') c : Bool) := by
    intro c hc
    have := hdig c (List.mem_reverse.mp hc)
    simp only [decide_eq_true_eq]
    intro heq
    subst heq
    revert this
    decide
  unfold parsePyInt natToStr
  simp only [String.data]
  rw [dropWhile_eq_self_of_not hno]
  rw [List.reverse_reverse, dropWhile_eq_self_of_not (by
    intro c hc
    exact hno c (List.mem_reverse.mpr hc))]
  have hparse := parse_reverse_digits (natDigitsRev n) hdig
  rw [revDigitsVal_natDigitsRev] at hparse
  cases hrev : (natDigitsRev n).reverse with
  | nil => exact absurd (by simpa using congrArg List.length hrev) (by simpa using natDigitsRev_ne_nil n)
  | cons c cs =>
    have hcdig : '0' ≤ c ∧ c ≤ '9' := by
      refine hdig c (List.mem_reverse.mp ?_)
      rw [hrev]
      simp
    have hc1 : c ≠ '-' := by
      rintro rfl
      revert hcdig
      decide
    have hc2 : c ≠ '+' := by
      rintro rfl
      revert hcdig
      decide
    rw [hrev] at hparse
    simp only []
    rw [if_neg hc1, if_neg hc2, hparse]
    simp

/-- C3: for every wallet identity (any crypto model whose sign/recover pair
satisfies the library contract: 64-byte compact signatures whose recovery
under recovery id 0 or 1 returns the signer's public key),
`verify_weil_signature` applied to the four headers from `build_auth_headers`
returns `True` whenever the verifying clock is within the 300-second replay
window of the build timestamp, and returns `False` whenever the verifying
clock is strictly more than `window + 1` seconds after it. -/
theorem c3_auth_header_round_trip (C : CryptoModel) (k tb : Nat) (now : Int)
    (hlen : ∀ k d, (C.signCompact k d).length = 64)
    (hbytes : ∀ k d, ∀ b ∈ C.signCompact k d, b < 256)
    (hrec : ∀ k d, C.recover (C.signCompact k d) d 0 = some (C.pubkey k) ∨
        C.recover (C.signCompact k d) d 1 = some (C.pubkey k)) :
    ((now - (tb : Int)).natAbs ≤ 300 →
      verifyWeilSignature C now 300
        (some (buildAuthHeaders C k tb).address)
        (some (buildAuthHeaders C k tb).signature)
        (some (buildAuthHeaders C k tb).message)
        (some (buildAuthHeaders C k tb).timestamp) = .ok true) ∧
    ((tb : Int) + 301 < now →
      verifyWeilSignature C now 300
        (some (buildAuthHeaders C k tb).address)
        (some (buildAuthHeaders C k tb).signature)
        (some (buildAuthHeaders C k tb).message)
        (some (buildAuthHeaders C k tb).timestamp) = .ok false) := by
  have hts := parsePyInt_natToStr tb
  constructor
  · intro hwin
    simp only [verifyWeilSignature, buildAuthHeaders, walletSign, getAddressFromPublicKey]
    rw [hts]
    simp only []
    rw [if_neg (by omega)]
    rw [hexDecode_hexEncode (hbytes k _)]
    simp only []
    rw [if_neg (by simp [hlen])]
    rcases hrec k (C.sha256 (strBytes (dumpJ (.obj [("timestamp",
        .str (natToStr tb))])))) with h | h
    · rw [h]
      simp [strLower_hexEncode]
    · rw [h]
      simp [strLower_hexEncode]
  · intro hafter
    simp only [verifyWeilSignature, buildAuthHeaders, walletSign, getAddressFromPublicKey]
    rw [hts]
    simp only []
    rw [if_pos (by omega)]

/-- A concrete crypto model satisfying the library contract, used to
instantiate the auth-protocol theorems: signatures embed the (one-byte)
public key in their last byte and recovery id 0 reads it back. -/
def toyCrypto : CryptoModel where
  sha256 := fun b => b
  formatUncompressed := fun p => [p]
  pubkey := fun k => k % 256
  signCompact := fun k _ => List.replicate 63 0 ++ [k % 256]
  recover := fun sig _ rid => if rid = 0 then some (sig.getLastD 0) else none

/-- C3 witness: the round trip evaluated in the concrete model, inside the
window (clock 5, build time 0) and just outside it (clock 302). -/
theorem c3_auth_header_round_trip_witness :
    verifyWeilSignature toyCrypto 5 300
        (some (buildAuthHeaders toyCrypto 7 0).address)
        (some (buildAuthHeaders toyCrypto 7 0).signature)
        (some (buildAuthHeaders toyCrypto 7 0).message)
        (some (buildAuthHeaders toyCrypto 7 0).timestamp) = .ok true ∧
      verifyWeilSignature toyCrypto 302 300
        (some (buildAuthHeaders toyCrypto 7 0).address)
        (some (buildAuthHeaders toyCrypto 7 0).signature)
        (some (buildAuthHeaders toyCrypto 7 0).message)
        (some (buildAuthHeaders toyCrypto 7 0).timestamp) = .ok false :=
  ⟨(c3_auth_header_round_trip toyCrypto 7 0 5
      (fun k d => by simp [toyCrypto])
      (fun k d b hb => by
        simp [toyCrypto] at hb
        rcases hb with hb | hb <;> omega)
      (fun k d => Or.inl (by simp [toyCrypto]))).1 (by decide),
   (c3_auth_header_round_trip toyCrypto 7 0 302
      (fun k d => by simp [toyCrypto])
      (fun k d b hb => by
        simp [toyCrypto] at hb
        rcases hb with hb | hb <;> omega)
      (fun k d => Or.inl (by simp [toyCrypto]))).2 (by decide)⟩

/-- C4 (code bug): `verify_weil_signature` collapses a missing or unparsable
timestamp, a stale timestamp, a non-hex signature, a wrong-length signature
and a recovered-address mismatch to `False` — but it does **not** return a
boolean for every input: with a parseable fresh timestamp, a missing
signature header raises `TypeError` (`bytes.fromhex(None)`) and a missing
message header raises `AttributeError` (`None.encode`), contradicting the
middleware's documented "missing any of the four headers → 401". -/
theorem c4_verify_exception_escape :
    (∀ (C : CryptoModel) (now maxAge : Int) (wa sig msg : Option String),
      verifyWeilSignature C now maxAge wa sig msg none = .ok false) ∧
    (∀ (C : CryptoModel) (now maxAge : Int) (wa sig msg : Option String),
      verifyWeilSignature C now maxAge wa sig msg (some "notanint") = .ok false) ∧
    (∀ (C : CryptoModel) (wa sig msg : Option String),
      verifyWeilSignature C 1000 300 wa sig msg (some "0") = .ok false) ∧
    (∀ (C : CryptoModel) (wa : Option String) (m : String),
      verifyWeilSignature C 0 300 wa (some "zz") (some m) (some "0") = .ok false) ∧
    (∀ (C : CryptoModel) (wa : Option String) (m : String),
      verifyWeilSignature C 0 300 wa (some "0042") (some m) (some "0") = .ok false) ∧
    (verifyWeilSignature toyCrypto 0 300 (some "zz")
      (some (hexEncode (List.replicate 64 0))) (some "m") (some "0") = .ok false) ∧
    (∀ (C : CryptoModel) (m : String),
      verifyWeilSignature C 0 300 (some "aa") none (some m) (some "0")
        = .error .typeError) ∧
    (∀ C : CryptoModel,
      verifyWeilSignature C 0 300 (some "aa") (some "00") none (some "0")
        = .error .attributeError) := by
  refine ⟨fun C now maxAge wa sig msg => rfl, fun C now maxAge wa sig msg => rfl,
    fun C wa sig msg => rfl, fun C wa m => rfl, fun C wa m => rfl, by decide,
    fun C m => rfl, fun C => rfl⟩

/-! ## DerivedAccountFactory (`derived_wallet.py`)

The Keccak-256 hash and the BIP32 child-key derivation are external
collaborators (eth_hash, bip_utils); they appear as the `keccak` parameter
and the `child` field. -/

/-- `pubkey_to_derived_address` (`derived_wallet.py` lines 38-47): strip the
`0x04` prefix only from a 65-byte uncompressed key, Keccak-256 the rest,
keep the last 20 bytes, render as `0x` + lowercase hex. -/
def pubkeyToDerivedAddress (keccak : List Nat → List Nat) (pk : List Nat) : String :=
  let body := if pk.length = 65 ∧ pk.headD 0 = 4 then pk.tail else pk
  let digest := keccak body
  "0x" ++ hexEncode (digest.drop (digest.length - 20))

/-- `WalletAccount` (`derived_wallet.py` lines 50-61). -/
structure WalletAccount where
  private_key : List Nat
  public_key : List Nat
  address : String
  deriving DecidableEq, Repr

/-- `MnemonicWallet` (`derived_wallet.py` lines 64-98): the pre-derived BIP32
master key is the abstract `child` function `index ↦ (private key bytes,
uncompressed public key bytes)`; `accounts` is the index-keyed cache dict. -/
structure MnemonicWallet where
  mnemonic : String
  child : Nat → List Nat × List Nat
  accounts : List (Nat × WalletAccount)

/-- `MnemonicWallet.derive_account` (`derived_wallet.py` lines 76-90):
return the cached account if present, otherwise derive, store, return.
The updated wallet (Python mutates `self._accounts`) is returned alongside. -/
def deriveAccount (keccak : List Nat → List Nat) (w : MnemonicWallet) (i : Nat) :
    WalletAccount × MnemonicWallet :=
  match w.accounts.lookup i with
  | some a => (a, w)
  | none =>
    let pb := w.child i
    let address := pubkeyToDerivedAddress keccak pb.2
    let account : WalletAccount :=
      { private_key := pb.1, public_key := pb.2, address := address }
    (account, { w with accounts := (i, account) :: w.accounts })

/-- C8: for every index, the first `derive_account` call stores the derived
account in the index-keyed cache, and a second call for the same index
returns the byte-identical account from the cache with the wallet state
unchanged (no recomputation). -/
theorem c8_derive_account_idempotent_memoized (keccak : List Nat → List Nat)
    (w : MnemonicWallet) (i : Nat) :
    ((deriveAccount keccak w i).2).accounts.lookup i = some (deriveAccount keccak w i).1 ∧
      deriveAccount keccak ((deriveAccount keccak w i).2) i
        = ((deriveAccount keccak w i).1, (deriveAccount keccak w i).2) := by
  unfold deriveAccount
  cases h : w.accounts.lookup i with
  | some a =>
    simp [h]
  | none =>
    simp [h, List.lookup]

/-- C10: `pubkey_to_derived_address` is total; it strips the leading byte
exactly when the input is 65 bytes starting with `0x04` and otherwise hashes
the input unmodified; the result is always `0x` followed by the 40 lowercase
hex characters of the last 20 bytes of the 32-byte Keccak digest. -/
theorem c10_pubkey_to_derived_address_shape (keccak : List Nat → List Nat)
    (pk : List Nat) (hk : ∀ b, (keccak b).length = 32) :
    (pk.length = 65 ∧ pk.headD 0 = 4 →
      pubkeyToDerivedAddress keccak pk = "0x" ++ hexEncode ((keccak pk.tail).drop 12)) ∧
    (¬(pk.length = 65 ∧ pk.headD 0 = 4) →
      pubkeyToDerivedAddress keccak pk = "0x" ++ hexEncode ((keccak pk).drop 12)) ∧
    (pubkeyToDerivedAddress keccak pk).length = 42 ∧
    (∀ c ∈ (pubkeyToDerivedAddress keccak pk).data.drop 2, c ∈ "0123456789abcdef".data) := by
  have hdropchars : ∀ body : List Nat,
      ∀ c ∈ (hexEncode ((keccak body).drop ((keccak body).length - 20))).data,
        c ∈ "0123456789abcdef".data := by
    intro body c hc
    unfold hexEncode at hc
    simp only [String.data] at hc
    rw [List.mem_flatMap] at hc
    obtain ⟨b, _, hb⟩ := hc
    simp only [List.mem_cons, List.not_mem_nil, or_false] at hb
    rcases hb with rfl | rfl <;> exact hexDigitChar_mem _
  have hlen20 : ∀ body : List Nat,
      ((keccak body).drop ((keccak body).length - 20)).length = 20 := by
    intro body
    rw [List.length_drop, hk]
  refine ⟨?_, ?_, ?_, ?_⟩
  · intro h
    unfold pubkeyToDerivedAddress
    rw [if_pos h]
    simp only []
    rw [hk]
    try norm_num
  · intro h
    unfold pubkeyToDerivedAddress
    rw [if_neg h]
    simp only []
    rw [hk]
    try norm_num
  · unfold pubkeyToDerivedAddress
    simp only []
    rw [String.length_append, hexEncode_length, hlen20]
    decide
  · unfold pubkeyToDerivedAddress
    simp only []
    intro c hc
    exact hdropchars (if pk.length = 65 ∧ pk.headD 0 = 4 then pk.tail else pk) c hc

/-- C10 witness: the shape theorem at a concrete Keccak model and a concrete
65-byte key with the `0x04` prefix. -/
theorem c10_pubkey_to_derived_address_shape_witness :
    (∀ b : List Nat, ((fun _ : List Nat => List.range 32) b).length = 32) ∧
      pubkeyToDerivedAddress (fun _ : List Nat => List.range 32)
          (4 :: List.replicate 64 0)
        = "0x" ++ hexEncode ((List.range 32).drop 12) :=
  ⟨fun _ => by simp,
    (c10_pubkey_to_derived_address_shape (fun _ => List.range 32)
      (4 :: List.replicate 64 0) (fun _ => by simp)).1 (by decide)⟩

end WeilSpec
